import Mathlib

/-!
Shallow embedding of the client-side simulation core of the agario repository
(`src/client/src/physics/CollisionDetection.ts`, `src/client/src/hooks/useGameState.ts`,
the split/player managers and the WebSocket service), over exact rational arithmetic.

Modelling conventions, applied uniformly:
* JavaScript numbers are modelled as `ℚ`.  All of the mass and position arithmetic in
  the source is field arithmetic, which `ℚ` reproduces exactly.
* `Math.random()`-derived quantities (jitter angles, random speeds) and the
  trigonometric direction vectors (`Math.cos`/`Math.sin` of an `atan2` angle) are
  irrational-valued; they are passed to the embedded functions as explicit
  parameters (unit-vector components `c`/`s`, per-piece velocity functions), with
  hypotheses such as `c ^ 2 + s ^ 2 = 1` where a theorem needs them.
* `Math.hypot` (a square root) is abstracted in one of two ways: a comparison
  `hypot dx dy < r` is encoded as the equivalent `dx ^ 2 + dy ^ 2 < r ^ 2` for
  nonnegative `r` (`distSqLt` below), or the hypot value is passed as a parameter
  `d` constrained by the hypothesis `d * d = dx ^ 2 + dy ^ 2 ∧ 0 ≤ d`.
* `radiusFromMass m = PELLET_RADIUS * Math.sqrt m` (from `utils.ts`) is abstracted
  as a function parameter `rfm : ℚ → ℚ` wherever the source computes a visual
  radius from a mass.
* `Date.now()` and frame timestamps are parameters (`now`, `nowTs`).
-/

namespace Agario

/-- Local player record (`Player` in `types.ts`): position, actual mass and the
visual radius maintained by `PlayerManager`.  The color field is irrelevant to
every claim and omitted. -/
structure Player where
  x : ℚ
  y : ℚ
  mass : ℚ
  radius : ℚ
deriving DecidableEq, Repr

/-- Local split piece (`SplitBlob` in `types.ts`). -/
structure SplitBlob where
  id : String
  x : ℚ
  y : ℚ
  vx : ℚ
  vy : ℚ
  mass : ℚ
  visualMass : ℚ
  born : ℚ
  mergeDelay : ℚ
deriving DecidableEq, Repr

/-- The split-blob literal pushed by `InputHandler.handleSplit` and
`InputHandler.handleEject`'s sibling: the source object carries no `id` and no
`visualMass` field (they are added by other code paths), so it gets its own
record type. -/
structure SplitSpawn where
  x : ℚ
  y : ℚ
  vx : ℚ
  vy : ℚ
  mass : ℚ
  born : ℚ
  mergeDelay : ℚ
deriving DecidableEq, Repr

/-- Server-owned pellet (`Pellet` in `types.ts`); color omitted. -/
structure Pellet where
  id : ℤ
  x : ℚ
  y : ℚ
  mass : ℚ
deriving DecidableEq, Repr

/-- Locally-ejected mass projectile (`Ejected` in `types.ts`): it has no id. -/
structure Ejected where
  x : ℚ
  y : ℚ
  vx : ℚ
  vy : ℚ
  travelled : ℚ
  mass : ℚ
deriving DecidableEq, Repr

/-- Remote player (`OtherPlayer` in `types.ts`); color omitted. -/
structure OtherPlayer where
  id : String
  x : ℚ
  y : ℚ
  mass : ℚ
  radius : ℚ
deriving DecidableEq, Repr

/-- Remote player's split (`OtherPlayerSplit` in `types.ts`); velocity and timing
fields are irrelevant to the collision claims and omitted. -/
structure OtherPlayerSplit where
  id : ℤ
  playerId : String
  x : ℚ
  y : ℚ
  mass : ℚ
deriving DecidableEq, Repr

/-- `distance (x1,y1) (x2,y2) < r` from `utils.ts` (a `Math.hypot` comparison),
encoded squared: for `0 ≤ r`, `hypot dx dy < r ↔ dx ^ 2 + dy ^ 2 < r ^ 2`. -/
def distSqLt (x1 y1 x2 y2 r : ℚ) : Bool :=
  decide ((x2 - x1) ^ 2 + (y2 - y1) ^ 2 < r ^ 2)

/-! ## Virus explosion (`CollisionDetection.explodeOnVirus`, lines 276-329) -/

/-- `CollisionDetection.explodeOnVirus`.  `currentSplitCount` is `splits.length`
at the call site.  The per-piece velocity (cos/sin of an evenly-spaced, jittered
angle times a randomized speed) is abstracted by `vxF`/`vyF`;
`virusExplodeSpeed` feeds only those velocities and is absorbed into them.
`12.5 = 25/2` and `0.02333 = 2333/100000` exactly. -/
def explodeOnVirus (blob : Player) (virusX virusY : ℚ) (currentSplitCount : ℕ)
    (vxF vyF : ℕ → ℚ) (virusMass : ℚ) (now : ℚ) : Player × List SplitBlob :=
  let totalCells : ℤ := (currentSplitCount : ℤ) + 1
  let maxNewCells : ℤ := 16 - totalCells
  if maxNewCells ≤ 0 then
    ({ blob with mass := blob.mass + virusMass }, [])
  else
    let targetPieces : ℤ := min ⌊blob.mass / (25 / 2)⌋ maxNewCells
    let piecesToCreate : ℤ := max 4 targetPieces
    let totalMass : ℚ := blob.mass + virusMass
    let massPerPiece : ℚ := totalMass / ((piecesToCreate : ℚ) + 1)
    let newPieces : List SplitBlob :=
      (List.range piecesToCreate.toNat).map (fun i =>
        { id := "virus-split-" ++ toString now ++ "-" ++ toString i
          x := virusX
          y := virusY
          vx := vxF i
          vy := vyF i
          mass := massPerPiece
          visualMass := massPerPiece
          born := now
          mergeDelay := 30000 + (2333 / 100000) * massPerPiece * 1000 })
    ({ blob with mass := massPerPiece }, newPieces)

/-- C1 counterexample.  The claimed 16-cell bound fails on the code: with
`currentSplitCount = 13` the remaining budget is `maxNewCells = 16 - 14 = 2`,
which is positive, and `explodeOnVirus` creates `max(4, min(⌊200/12.5⌋, 2)) = 4`
pieces because the `max(4, ·)` floor is applied after the budget cap.  The total
cell count is then `14 + 4 = 18 > 16`. -/
theorem explodeOnVirus_can_exceed_16_cells :
    (explodeOnVirus ⟨0, 0, 200, 0⟩ 0 0 13 (fun _ => 0) (fun _ => 0) 100 0).2.length = 4 ∧
      ¬ (13 + 1 + (explodeOnVirus ⟨0, 0, 200, 0⟩ 0 0 13 (fun _ => 0) (fun _ => 0) 100 0).2.length ≤ 16) := by
  have h : (explodeOnVirus ⟨0, 0, 200, 0⟩ 0 0 13 (fun _ => 0) (fun _ => 0) 100 0).2.length = 4 := by
    simp only [explodeOnVirus]
    norm_num
    rfl
  exact ⟨h, by omega⟩

/-- C1 (amended).  Whenever the pre-explosion cell count leaves a budget of at
least 4 new cells — that is, `currentSplitCount ≤ 11` — the total cell count
after `explodeOnVirus`, namely `(currentSplitCount + 1)` plus the number of
returned pieces, is at most 16.  (For `currentSplitCount` 12 to 14 the
`max(4, ·)` floor overrides the budget and the bound fails, see the
counterexample.) -/
theorem explodeOnVirus_cell_budget (blob : Player) (vX vY : ℚ) (s : ℕ)
    (vxF vyF : ℕ → ℚ) (vm now : ℚ) (hs : s ≤ 11) :
    s + 1 + (explodeOnVirus blob vX vY s vxF vyF vm now).2.length ≤ 16 := by
  simp only [explodeOnVirus]
  rw [if_neg (by omega : ¬ ((16 : ℤ) - ((s : ℤ) + 1) ≤ 0))]
  simp only [List.length_map, List.length_range]
  generalize ⌊blob.mass / (25 / 2)⌋ = t
  omega

/-- Witness for `explodeOnVirus_cell_budget` at `currentSplitCount = 2`. -/
theorem explodeOnVirus_cell_budget_witness :
    2 ≤ 11 ∧
      2 + 1 + (explodeOnVirus ⟨0, 0, 200, 0⟩ 0 0 2 (fun _ => 0) (fun _ => 0) 100 0).2.length ≤ 16 :=
  ⟨by norm_num,
   explodeOnVirus_cell_budget ⟨0, 0, 200, 0⟩ 0 0 2 (fun _ => 0) (fun _ => 0) 100 0 (by norm_num)⟩

/-- C8.  Mass accounting of `explodeOnVirus`: when no cell budget remains
(`16 - (currentSplitCount + 1) ≤ 0`) the blob's mass grows by exactly the virus
mass and no pieces are created; otherwise the surviving blob's mass plus the sum
of all piece masses equals `blobMass + virusMass` exactly, and every piece
carries the even share `(blobMass + virusMass) / (pieces + 1)`. -/
theorem explodeOnVirus_mass_conservation (blob : Player) (vX vY : ℚ) (s : ℕ)
    (vxF vyF : ℕ → ℚ) (vm now : ℚ) :
    (16 - ((s : ℤ) + 1) ≤ 0 →
      (explodeOnVirus blob vX vY s vxF vyF vm now).1.mass = blob.mass + vm ∧
      (explodeOnVirus blob vX vY s vxF vyF vm now).2 = []) ∧
    (0 < 16 - ((s : ℤ) + 1) →
      (explodeOnVirus blob vX vY s vxF vyF vm now).1.mass
        + ((explodeOnVirus blob vX vY s vxF vyF vm now).2.map SplitBlob.mass).sum
        = blob.mass + vm ∧
      ∀ p ∈ (explodeOnVirus blob vX vY s vxF vyF vm now).2,
        p.mass = (blob.mass + vm)
          / (((explodeOnVirus blob vX vY s vxF vyF vm now).2.length : ℚ) + 1)) := by
  constructor
  · intro h
    simp only [explodeOnVirus]
    rw [if_pos h]
    exact ⟨rfl, rfl⟩
  · intro h
    simp only [explodeOnVirus]
    rw [if_neg (by omega)]
    set P : ℤ := max 4 (min ⌊blob.mass / (25 / 2)⌋ (16 - ((s : ℤ) + 1))) with hP
    have hP4 : (4 : ℤ) ≤ P := le_max_left _ _
    have hPn : (0 : ℤ) ≤ P := by omega
    have hcast : ((P.toNat : ℚ)) = (P : ℚ) := by exact_mod_cast Int.toNat_of_nonneg hPn
    have hne : ((P : ℚ) + 1) ≠ 0 := by
      have : (4 : ℚ) ≤ (P : ℚ) := by exact_mod_cast hP4
      linarith
    constructor
    · simp only [List.map_map, Function.comp_def, List.map_const', List.sum_replicate,
        List.length_range, smul_eq_mul, hcast]
      field_simp
      rw [hcast]
      ring
    · intro p hp
      simp only [List.mem_map, List.mem_range] at hp
      obtain ⟨i, hi, rfl⟩ := hp
      simp only [List.length_map, List.length_range, hcast]

/-- Witness for `explodeOnVirus_mass_conservation`, positive-budget branch at
`currentSplitCount = 2`, blob mass 200, virus mass 100. -/
theorem explodeOnVirus_mass_conservation_witness :
    (explodeOnVirus ⟨0, 0, 200, 0⟩ 0 0 2 (fun _ => 0) (fun _ => 0) 100 0).1.mass
      + ((explodeOnVirus ⟨0, 0, 200, 0⟩ 0 0 2 (fun _ => 0) (fun _ => 0) 100 0).2.map
          SplitBlob.mass).sum = (200 : ℚ) + 100 :=
  ((explodeOnVirus_mass_conservation ⟨0, 0, 200, 0⟩ 0 0 2 (fun _ => 0) (fun _ => 0) 100 0).2
    (by norm_num)).1

/-! ## Split action (`InputHandler.handleSplit`, CollisionDetection.ts lines 452-511) -/

/-- One existing split blob's share of `InputHandler.handleSplit` (the loop body,
lines 489-508): if the blob's actual mass reaches the threshold, halve it in
place and spawn a blob of the other half at the same position.  `cA`/`sA` are
`cos baseAng`/`sin baseAng` of the cursor direction. -/
def splitCell (cA sA splitThreshold splitSpeed now : ℚ) (s : SplitBlob) :
    SplitBlob × List SplitSpawn :=
  if splitThreshold ≤ s.mass then
    let half := s.mass / 2
    ({ s with mass := half },
     [{ x := s.x, y := s.y, vx := cA * splitSpeed, vy := sA * splitSpeed,
        mass := half, born := now, mergeDelay := 30000 + (2333 / 100000) * half * 1000 }])
  else (s, [])

/-- `InputHandler.handleSplit` (lines 452-511): the main player's split (lines
469-486, with the radius recomputed through `radiusFromMass`, abstracted as
`rfm`), then the per-split loop, which is `splitCell` on each element.  Returns
(updated player, updated splits, newSplits). -/
def handleSplit (rfm : ℚ → ℚ) (player : Player) (splits : List SplitBlob)
    (cA sA splitThreshold splitSpeed now : ℚ) :
    Player × List SplitBlob × List SplitSpawn :=
  let playerPart : Player × List SplitSpawn :=
    if splitThreshold ≤ player.mass then
      let half := player.mass / 2
      ({ player with mass := half, radius := rfm half },
       [{ x := player.x, y := player.y, vx := cA * splitSpeed, vy := sA * splitSpeed,
          mass := half, born := now, mergeDelay := 30000 + (2333 / 100000) * half * 1000 }])
    else (player, [])
  (playerPart.1,
   splits.map (fun s => (splitCell cA sA splitThreshold splitSpeed now s).1),
   playerPart.2 ++ splits.flatMap (fun s => (splitCell cA sA splitThreshold splitSpeed now s).2))

/-- Each cell's mass is exactly redistributed by `splitCell`. -/
theorem splitCell_mass (cA sA thr spd now : ℚ) (s : SplitBlob) :
    ((splitCell cA sA thr spd now s).1).mass
      + (((splitCell cA sA thr spd now s).2).map SplitSpawn.mass).sum = s.mass := by
  unfold splitCell
  split
  · simp only [List.map_cons, List.map_nil, List.sum_cons, List.sum_nil]
    ring
  · simp

/-- Summed over a split list, `splitCell` conserves total mass. -/
theorem splitCell_mass_sum (cA sA thr spd now : ℚ) (splits : List SplitBlob) :
    ((splits.map (fun s => (splitCell cA sA thr spd now s).1)).map SplitBlob.mass).sum
      + ((splits.flatMap (fun s => (splitCell cA sA thr spd now s).2)).map SplitSpawn.mass).sum
      = (splits.map SplitBlob.mass).sum := by
  induction splits with
  | nil => simp
  | cons s rest ih =>
    simp only [List.map_cons, List.sum_cons, List.flatMap_cons, List.map_append, List.sum_append]
    have h := splitCell_mass cA sA thr spd now s
    linarith

/-- C7.  `InputHandler.handleSplit` conserves total actual mass exactly, and for
every eligible cell — the main player or any existing split with mass
`M ≥ splitThreshold` — it halves that cell's mass in place and spawns one new
blob of mass `M/2` at the same position with
`mergeDelay = 30000 + 0.02333 * (M/2) * 1000`. -/
theorem handleSplit_spec (rfm : ℚ → ℚ) (player : Player) (splits : List SplitBlob)
    (cA sA thr spd now : ℚ) :
    ((handleSplit rfm player splits cA sA thr spd now).1.mass
       + (((handleSplit rfm player splits cA sA thr spd now).2.1).map SplitBlob.mass).sum
       + (((handleSplit rfm player splits cA sA thr spd now).2.2).map SplitSpawn.mass).sum
       = player.mass + (splits.map SplitBlob.mass).sum) ∧
    (thr ≤ player.mass →
       (handleSplit rfm player splits cA sA thr spd now).1.mass = player.mass / 2 ∧
       ∃ b ∈ (handleSplit rfm player splits cA sA thr spd now).2.2,
         b.x = player.x ∧ b.y = player.y ∧ b.mass = player.mass / 2 ∧ b.born = now ∧
         b.mergeDelay = 30000 + (2333 / 100000) * (player.mass / 2) * 1000) ∧
    (∀ (i : ℕ) (s0 : SplitBlob), splits[i]? = some s0 → thr ≤ s0.mass →
       ((handleSplit rfm player splits cA sA thr spd now).2.1)[i]?
         = some { s0 with mass := s0.mass / 2 } ∧
       ∃ b ∈ (handleSplit rfm player splits cA sA thr spd now).2.2,
         b.x = s0.x ∧ b.y = s0.y ∧ b.mass = s0.mass / 2 ∧ b.born = now ∧
         b.mergeDelay = 30000 + (2333 / 100000) * (s0.mass / 2) * 1000) := by
  refine ⟨?_, ?_, ?_⟩
  · have h := splitCell_mass_sum cA sA thr spd now splits
    simp only [handleSplit, List.map_append, List.sum_append]
    split
    · simp only [List.map_cons, List.map_nil, List.sum_cons, List.sum_nil]
      linarith
    · simp only [List.map_nil, List.sum_nil]
      linarith
  · intro h
    simp only [handleSplit]
    rw [if_pos h]
    exact ⟨rfl, ⟨_, List.mem_append_left _ (List.mem_singleton_self _), rfl, rfl, rfl, rfl, rfl⟩⟩
  · intro i s0 hget hs0
    constructor
    · simp only [handleSplit, List.getElem?_map, hget, Option.map_some']
      simp only [splitCell]
      rw [if_pos hs0]
    · have hmem : s0 ∈ splits := by
        obtain ⟨hlt, rfl⟩ := List.getElem?_eq_some.1 hget
        exact List.getElem_mem _
      have hbmem : (⟨s0.x, s0.y, cA * spd, sA * spd, s0.mass / 2, now,
          30000 + (2333 / 100000) * (s0.mass / 2) * 1000⟩ : SplitSpawn)
          ∈ (splitCell cA sA thr spd now s0).2 := by
        simp only [splitCell]
        rw [if_pos hs0]
        exact List.mem_singleton_self _
      exact ⟨_, List.mem_append_right _ (List.mem_flatMap.2 ⟨s0, hmem, hbmem⟩),
        rfl, rfl, rfl, rfl, rfl⟩

/-- Witness for `handleSplit_spec`: main player of mass 40 with threshold 32
ends at mass 20. -/
theorem handleSplit_spec_witness :
    (handleSplit (fun _ => 0) ⟨5, 6, 40, 0⟩ [] 1 0 32 400 7).1.mass = 20 := by
  have h := ((handleSplit_spec (fun _ => 0) ⟨5, 6, 40, 0⟩ [] 1 0 32 400 7).2.1 (by norm_num)).1
  norm_num at h
  exact h

/-! ## Eject action (`InputHandler.handleEject`, CollisionDetection.ts lines 391-450) -/

/-- `InputHandler.handleEject`.  For each eligible cell (main player first, then
every split in order), subtract `ejectLoss` from the cell's actual mass and push
one `Ejected` pellet at the cell's boundary along the jittered aim direction,
with speed `ejectSpeed` and mass `ejectMassGain`.  The jittered angle
`ang = baseAng + (2·random − 1) * EJECT_SPREAD` is abstracted by its unit
vector: `c`/`s` for the main player, `cF i`/`sF i` for the split at index `i`.
`pelletRadius` is `getPelletRadius()`; for a split the boundary uses the
pre-eject radius `rfm (s.mass + ejectLoss)` recomputed after the subtraction. -/
def handleEject (rfm : ℚ → ℚ) (player : Player) (splits : List SplitBlob)
    (ejected : List Ejected) (c s : ℚ) (cF sF : ℕ → ℚ)
    (ejectThreshold ejectLoss ejectMassGain ejectSpeed pelletRadius : ℚ) :
    Player × List SplitBlob × List Ejected :=
  let playerPart : Player × List Ejected :=
    if ejectThreshold ≤ player.mass then
      ({ player with mass := player.mass - ejectLoss },
       [{ x := player.x + c * (player.radius + pelletRadius)
          y := player.y + s * (player.radius + pelletRadius)
          vx := c * ejectSpeed
          vy := s * ejectSpeed
          travelled := 0
          mass := ejectMassGain }])
    else (player, [])
  let splitEject : ℕ × SplitBlob → SplitBlob × List Ejected := fun p =>
    let sb := p.2
    if ejectThreshold ≤ sb.mass then
      let m2 := sb.mass - ejectLoss
      let sRadius := rfm (m2 + ejectLoss)
      ({ sb with mass := m2 },
       [{ x := sb.x + cF p.1 * (sRadius + pelletRadius)
          y := sb.y + sF p.1 * (sRadius + pelletRadius)
          vx := cF p.1 * ejectSpeed
          vy := sF p.1 * ejectSpeed
          travelled := 0
          mass := ejectMassGain }])
    else (sb, [])
  let splitResults := splits.enum.map splitEject
  (playerPart.1, splitResults.map Prod.fst,
   ejected ++ playerPart.2 ++ splitResults.flatMap Prod.snd)

/-- C4 counterexample.  The claimed end state is wrong on the code: a local
player of actual mass 200 with eject threshold 35 and eject loss 18 ends one
eject action at mass `200 - 18 = 182`, not 178 as the claim states. -/
theorem handleEject_mass_not_178 :
    (handleEject (fun _ => 0) ⟨0, 0, 200, 10⟩ [] [] 1 0 (fun _ => 1) (fun _ => 0)
        35 18 13 350 5).1.mass ≠ 178 ∧
      (handleEject (fun _ => 0) ⟨0, 0, 200, 10⟩ [] [] 1 0 (fun _ => 1) (fun _ => 0)
        35 18 13 350 5).1.mass = 182 := by
  have h : (handleEject (fun _ => 0) ⟨0, 0, 200, 10⟩ [] [] 1 0 (fun _ => 1) (fun _ => 0)
      35 18 13 350 5).1.mass = 182 := by
    simp only [handleEject]
    norm_num
  rw [h]
  norm_num

/-- C4 (amended).  One eject action by a local player with no splits and
`ejectThreshold ≤ mass` leaves the player's actual mass at exactly
`mass - ejectLoss` (for mass 200 and loss 18 that is 182, not the 178 the claim
states), and appends exactly one new `Ejected` entity carrying the configured
`ejectMassGain`, positioned at distance `player.radius + pelletRadius` from the
player's center along the jittered aim direction `(c, s)` (the code draws that
direction within ±`EJECT_SPREAD` of the aim angle; the angle is abstracted here
as its unit vector). -/
theorem handleEject_spec (rfm : ℚ → ℚ) (player : Player) (ejected : List Ejected)
    (c s : ℚ) (cF sF : ℕ → ℚ) (thr loss gain spd pr : ℚ)
    (hthr : thr ≤ player.mass) (hdir : c ^ 2 + s ^ 2 = 1) :
    (handleEject rfm player [] ejected c s cF sF thr loss gain spd pr).1.mass
      = player.mass - loss ∧
    (handleEject rfm player [] ejected c s cF sF thr loss gain spd pr).2.2
      = ejected ++ [⟨player.x + c * (player.radius + pr), player.y + s * (player.radius + pr),
          c * spd, s * spd, 0, gain⟩] ∧
    ((player.x + c * (player.radius + pr)) - player.x) ^ 2
        + ((player.y + s * (player.radius + pr)) - player.y) ^ 2
      = (player.radius + pr) ^ 2 := by
  refine ⟨?_, ?_, ?_⟩
  · simp only [handleEject]
    rw [if_pos hthr]
  · simp only [handleEject]
    rw [if_pos hthr]
    simp
  · have : ((player.x + c * (player.radius + pr)) - player.x) ^ 2
        + ((player.y + s * (player.radius + pr)) - player.y) ^ 2
        = (c ^ 2 + s ^ 2) * (player.radius + pr) ^ 2 := by ring
    rw [this, hdir, one_mul]

/-- Witness for `handleEject_spec` at mass 200, threshold 35, loss 18,
gain 13, radius 10, pellet radius 5, aim direction (1, 0). -/
theorem handleEject_spec_witness :
    (handleEject (fun _ => 0) ⟨0, 0, 200, 10⟩ [] [] 1 0 (fun _ => 1) (fun _ => 0)
        35 18 13 350 5).2.2 = [⟨15, 0, 350, 0, 0, 13⟩] := by
  have h := (handleEject_spec (fun _ => 0) ⟨0, 0, 200, 10⟩ [] 1 0 (fun _ => 1) (fun _ => 0)
      35 18 13 350 5 (by norm_num) (by norm_num)).2.1
  norm_num at h
  convert h using 2

/-! ## Split-pair relaxation (`CollisionDetection.handleSplitBlobCollisions`,
lines 47-83: the inner unordered-pair body of one relaxation pass) -/

/-- One relaxation-pass step of `handleSplitBlobCollisions` on one unordered
pair of splits (lines 57-80).  The pair is processed only when at least one of
the two cannot merge yet.  `r1`/`r2` are the visual radii
`radiusFromMass s1.visualMass` / `radiusFromMass s2.visualMass` (the square root
is abstracted as a parameter); `d` is `Math.hypot (s2.x - s1.x) (s2.y - s1.y)`,
constrained in the theorems by `d * d = dx ^ 2 + dy ^ 2`; `randCos`/`randSin`
abstract the random degenerate-center separation angle.  `1e-3 = 1/1000` and the
push factors `0.5` are exact; `minSep = 2`. -/
def pairStep (s1 s2 : SplitBlob) (r1 r2 d randCos randSin nowTs : ℚ) :
    SplitBlob × SplitBlob :=
  if nowTs - s1.born < s1.mergeDelay ∨ nowTs - s2.born < s2.mergeDelay then
    let dx := s2.x - s1.x
    let dy := s2.y - s1.y
    let minD := r1 + r2
    if d < minD ∧ 1 / 1000 < d then
      let nx := dx / d
      let ny := dy / d
      let overlap := minD - d
      let pushForce := overlap * (1 / 2)
      ({ s1 with x := s1.x - nx * pushForce * (1 / 2), y := s1.y - ny * pushForce * (1 / 2) },
       { s2 with x := s2.x + nx * pushForce * (1 / 2), y := s2.y + ny * pushForce * (1 / 2) })
    else if d ≤ 1 / 1000 then
      ({ s1 with x := s1.x - randCos * 2, y := s1.y - randSin * 2 },
       { s2 with x := s2.x + randCos * 2, y := s2.y + randSin * 2 })
    else (s1, s2)
  else (s1, s2)

/-- C5 counterexample.  The claim that one relaxation pass strictly reduces
(never increases) the center distance of two overlapping merge-delayed splits is
false on the code, which pushes the pair apart: splits at centers `(0,0)` and
`(3,0)` with visual radii 2 each (center distance 3, overlap 1, both inside
their merge-delay windows) end the pass at squared center distance
`49/4 = (3.5)^2`, strictly greater than the old `3^2` (distances are
nonnegative, so comparing squares is faithful). -/
theorem pairStep_increases_distance :
    ((pairStep ⟨"a", 0, 0, 0, 0, 10, 16, 0, 1000⟩ ⟨"b", 3, 0, 0, 0, 10, 16, 0, 1000⟩
        2 2 3 1 0 0).2.x
      - (pairStep ⟨"a", 0, 0, 0, 0, 10, 16, 0, 1000⟩ ⟨"b", 3, 0, 0, 0, 10, 16, 0, 1000⟩
        2 2 3 1 0 0).1.x) ^ 2
    + ((pairStep ⟨"a", 0, 0, 0, 0, 10, 16, 0, 1000⟩ ⟨"b", 3, 0, 0, 0, 10, 16, 0, 1000⟩
        2 2 3 1 0 0).2.y
      - (pairStep ⟨"a", 0, 0, 0, 0, 10, 16, 0, 1000⟩ ⟨"b", 3, 0, 0, 0, 10, 16, 0, 1000⟩
        2 2 3 1 0 0).1.y) ^ 2 = 49 / 4 ∧ ¬ ((49 : ℚ) / 4 ≤ 3 ^ 2) := by
  constructor
  · simp only [pairStep]
    norm_num
  · norm_num

/-- C5 (amended).  For two overlapping split blobs that are both still within
their merge-delay windows and whose center distance `d` exceeds the `1e-3`
degeneracy guard, one relaxation pass strictly INCREASES the center distance —
the pass pushes the pair apart, halving the overlap: the new center distance is
exactly `d + (r1 + r2 - d)/2` (stated via its square).  When the pair is
already non-overlapping (`r1 + r2 ≤ d`) the pass leaves both positions
unchanged. -/
theorem pairStep_separation (s1 s2 : SplitBlob) (r1 r2 d rc rs nowTs : ℚ)
    (h1 : nowTs - s1.born < s1.mergeDelay)
    (h2 : nowTs - s2.born < s2.mergeDelay)
    (hd : d * d = (s2.x - s1.x) ^ 2 + (s2.y - s1.y) ^ 2) :
    (1 / 1000 < d → d < r1 + r2 →
      ((pairStep s1 s2 r1 r2 d rc rs nowTs).2.x - (pairStep s1 s2 r1 r2 d rc rs nowTs).1.x) ^ 2
        + ((pairStep s1 s2 r1 r2 d rc rs nowTs).2.y - (pairStep s1 s2 r1 r2 d rc rs nowTs).1.y) ^ 2
        = (d + (r1 + r2 - d) / 2) ^ 2
      ∧ d < d + (r1 + r2 - d) / 2) ∧
    (1 / 1000 < d → r1 + r2 ≤ d →
      pairStep s1 s2 r1 r2 d rc rs nowTs = (s1, s2)) := by
  constructor
  · intro hdpos hover
    have hdne : d ≠ 0 := by linarith
    constructor
    · simp only [pairStep]
      rw [if_pos (Or.inl h1), if_pos ⟨hover, hdpos⟩]
      have hx : (s2.x + (s2.x - s1.x) / d * ((r1 + r2 - d) * (1 / 2)) * (1 / 2))
          - (s1.x - (s2.x - s1.x) / d * ((r1 + r2 - d) * (1 / 2)) * (1 / 2))
          = (s2.x - s1.x) * (2 * d + (r1 + r2 - d)) / (2 * d) := by
        field_simp
        ring
      have hy : (s2.y + (s2.y - s1.y) / d * ((r1 + r2 - d) * (1 / 2)) * (1 / 2))
          - (s1.y - (s2.y - s1.y) / d * ((r1 + r2 - d) * (1 / 2)) * (1 / 2))
          = (s2.y - s1.y) * (2 * d + (r1 + r2 - d)) / (2 * d) := by
        field_simp
        ring
      show (s2.x + (s2.x - s1.x) / d * ((r1 + r2 - d) * (1 / 2)) * (1 / 2)
          - (s1.x - (s2.x - s1.x) / d * ((r1 + r2 - d) * (1 / 2)) * (1 / 2))) ^ 2
        + (s2.y + (s2.y - s1.y) / d * ((r1 + r2 - d) * (1 / 2)) * (1 / 2)
          - (s1.y - (s2.y - s1.y) / d * ((r1 + r2 - d) * (1 / 2)) * (1 / 2))) ^ 2
        = (d + (r1 + r2 - d) / 2) ^ 2
      rw [hx, hy]
      have hk : ((s2.x - s1.x) * (2 * d + (r1 + r2 - d))) ^ 2
          + ((s2.y - s1.y) * (2 * d + (r1 + r2 - d))) ^ 2
          = d * d * (2 * d + (r1 + r2 - d)) ^ 2 := by
        linear_combination (-((2 * d + (r1 + r2 - d)) ^ 2)) * hd
      rw [div_pow, div_pow, div_add_div_same, hk]
      rw [div_eq_iff (pow_ne_zero 2 (mul_ne_zero two_ne_zero hdne))]
      ring
    · linarith
  · intro hdpos hge
    simp only [pairStep]
    rw [if_pos (Or.inl h1), if_neg (by push_neg; intro h; linarith), if_neg (by linarith)]

/-- Witness for `pairStep_separation`: the overlapping pair at distance 3 with
combined radii 4 ends the pass at squared distance `(3 + 1/2)^2`. -/
theorem pairStep_separation_witness :
    ((pairStep ⟨"a", 0, 0, 0, 0, 10, 16, 0, 1000⟩ ⟨"b", 3, 0, 0, 0, 10, 16, 0, 1000⟩
        2 2 3 1 0 0).2.x
      - (pairStep ⟨"a", 0, 0, 0, 0, 10, 16, 0, 1000⟩ ⟨"b", 3, 0, 0, 0, 10, 16, 0, 1000⟩
        2 2 3 1 0 0).1.x) ^ 2
    + ((pairStep ⟨"a", 0, 0, 0, 0, 10, 16, 0, 1000⟩ ⟨"b", 3, 0, 0, 0, 10, 16, 0, 1000⟩
        2 2 3 1 0 0).2.y
      - (pairStep ⟨"a", 0, 0, 0, 0, 10, 16, 0, 1000⟩ ⟨"b", 3, 0, 0, 0, 10, 16, 0, 1000⟩
        2 2 3 1 0 0).1.y) ^ 2 = (3 + (2 + 2 - 3) / 2) ^ 2 :=
  ((pairStep_separation ⟨"a", 0, 0, 0, 0, 10, 16, 0, 1000⟩ ⟨"b", 3, 0, 0, 0, 10, 16, 0, 1000⟩
      2 2 3 1 0 0 (by norm_num) (by norm_num) (by norm_num)).1 (by norm_num) (by norm_num)).1

/-! ## Split-blob lifecycle (`SplitBlobManager.update`, `src/unnamed/part_002`
lines 33-104, merge gate at lines 63-81) -/

/-- `MIMIC_FACTOR = 0.7` from `constants.ts`. -/
def MIMIC_FACTOR : ℚ := 7 / 10

/-- `GROWTH_SMOOTH_FACTOR = 0.08` from the manager module. -/
def GROWTH_SMOOTH_FACTOR : ℚ := 2 / 25

/-- `clampToWorld` from `utils.ts`. -/
def clampToWorld (x y radius worldSize : ℚ) : ℚ × ℚ :=
  (min (max x radius) (worldSize - radius), min (max y radius) (worldSize - radius))

/-- The visual-mass smoothing block at the top of the `SplitBlobManager.update`
loop body (lines 53-61): move `visualMass` toward `mass` by
`GROWTH_SMOOTH_FACTOR`, snapping when the gap is below `0.1` (the source adds
the increment first and then overwrites it on snap, which nets to this). -/
def smoothVisual (s : SplitBlob) : SplitBlob :=
  if s.visualMass ≠ s.mass then
    if |s.mass - s.visualMass| < 1 / 10 then { s with visualMass := s.mass }
    else { s with visualMass := s.visualMass + (s.mass - s.visualMass) * GROWTH_SMOOTH_FACTOR }
  else s

theorem smoothVisual_x (s : SplitBlob) : (smoothVisual s).x = s.x := by
  unfold smoothVisual; split_ifs <;> rfl

theorem smoothVisual_y (s : SplitBlob) : (smoothVisual s).y = s.y := by
  unfold smoothVisual; split_ifs <;> rfl

theorem smoothVisual_mass (s : SplitBlob) : (smoothVisual s).mass = s.mass := by
  unfold smoothVisual; split_ifs <;> rfl

theorem smoothVisual_born (s : SplitBlob) : (smoothVisual s).born = s.born := by
  unfold smoothVisual; split_ifs <;> rfl

theorem smoothVisual_mergeDelay (s : SplitBlob) :
    (smoothVisual s).mergeDelay = s.mergeDelay := by
  unfold smoothVisual; split_ifs <;> rfl

/-- The tail of the `SplitBlobManager.update` loop body for a surviving blob
(lines 84-94): boundary clamp using the visual radius `rfm s.visualMass`, then
decay of the actual mass floored at 10.  The player is returned untouched. -/
def splitFinish (rfm : ℚ → ℚ) (player : Player) (s : SplitBlob)
    (dt worldSize decayRate : ℚ) : Option SplitBlob × Player :=
  let r := rfm s.visualMass
  let c := clampToWorld s.x s.y r worldSize
  let s1 := { s with x := c.1, y := c.2 }
  let s2 := if 10 < s1.mass then { s1 with mass := max 10 (s1.mass - s1.mass * decayRate * dt) }
    else s1
  (some s2, player)

theorem splitFinish_fst_isSome (rfm : ℚ → ℚ) (player : Player) (s : SplitBlob)
    (dt worldSize decayRate : ℚ) : (splitFinish rfm player s dt worldSize decayRate).1.isSome := by
  unfold splitFinish
  simp

theorem splitFinish_snd (rfm : ℚ → ℚ) (player : Player) (s : SplitBlob)
    (dt worldSize decayRate : ℚ) : (splitFinish rfm player s dt worldSize decayRate).2 = player :=
  rfl

/-- One iteration of the `SplitBlobManager.update` loop for a single split blob
(lines 48-95).  `hyp` abstracts `Math.hypot`; the source's
`Math.hypot(dxm, dym) || 1` maps the JS-falsy value `0` to `1`, embedded as the
`if d0 = 0` test.  Ballistic flight while `age < splitFlightDuration`; after
that, mimicry plus homing, and the merge gate
`age >= s.mergeDelay && dist < player.radius`: on merge the blob is dropped
(`none`) and its mass added to the player, skipping clamp and decay. -/
def splitBlobStep (hyp : ℚ → ℚ → ℚ) (rfm : ℚ → ℚ) (player : Player) (s : SplitBlob)
    (dt nowTs velX velY worldSize splitFlightDuration mergeSpeed decayRate : ℚ) :
    Option SplitBlob × Player :=
  let age := nowTs - s.born
  let s1 := smoothVisual s
  if age < splitFlightDuration then
    splitFinish rfm player { s1 with x := s1.x + s1.vx * dt, y := s1.y + s1.vy * dt }
      dt worldSize decayRate
  else
    let s2 := { s1 with x := s1.x + velX * MIMIC_FACTOR * dt, y := s1.y + velY * MIMIC_FACTOR * dt }
    let dxm := player.x - s2.x
    let dym := player.y - s2.y
    let d0 := hyp dxm dym
    let dist := if d0 = 0 then 1 else d0
    let s3 := { s2 with x := s2.x + dxm / dist * mergeSpeed * (1 - MIMIC_FACTOR) * dt,
                        y := s2.y + dym / dist * mergeSpeed * (1 - MIMIC_FACTOR) * dt }
    if s3.mergeDelay ≤ age ∧ dist < player.radius then
      (none, { player with mass := player.mass + s3.mass })
    else
      splitFinish rfm player s3 dt worldSize decayRate

/-- `SplitBlobManager.update` over the whole split list: the source loops from
the last index down to the first, collecting merged indices and splicing them
out afterwards; processing right-to-left with in-place removal is a `foldr`. -/
def splitBlobsUpdate (hyp : ℚ → ℚ → ℚ) (rfm : ℚ → ℚ) (splits : List SplitBlob) (player : Player)
    (dt nowTs velX velY worldSize splitFlightDuration mergeSpeed decayRate : ℚ) :
    List SplitBlob × Player :=
  splits.foldr (fun s acc =>
    match splitBlobStep hyp rfm acc.2 s dt nowTs velX velY worldSize splitFlightDuration
        mergeSpeed decayRate with
    | (some s2, p) => (s2 :: acc.1, p)
    | (none, p) => (acc.1, p)) ([], player)

/-- C9.  A split blob whose age is below its `mergeDelay` is never merged by
`SplitBlobManager.update`, regardless of its distance to the player — the
statement quantifies over every hypot oracle `hyp`, including ones reporting
distance 0; a merge (`none`) conversely requires both `mergeDelay ≤ age` and
the blob's center distance to the player (measured after the mimicry move)
being below the player's radius.  Lifted to the whole list: if every blob is
inside its merge-delay window, the update changes neither the player's mass nor
the number of splits. -/
theorem splitBlob_merge_gating (hyp : ℚ → ℚ → ℚ) (rfm : ℚ → ℚ) (player : Player) (s : SplitBlob)
    (splits : List SplitBlob) (dt nowTs velX velY worldSize fd ms dr : ℚ) :
    (nowTs - s.born < s.mergeDelay →
      (splitBlobStep hyp rfm player s dt nowTs velX velY worldSize fd ms dr).1.isSome ∧
      (splitBlobStep hyp rfm player s dt nowTs velX velY worldSize fd ms dr).2 = player) ∧
    ((splitBlobStep hyp rfm player s dt nowTs velX velY worldSize fd ms dr).1 = none →
      s.mergeDelay ≤ nowTs - s.born ∧
      hyp (player.x - (s.x + velX * MIMIC_FACTOR * dt))
          (player.y - (s.y + velY * MIMIC_FACTOR * dt)) < player.radius) ∧
    ((∀ b ∈ splits, nowTs - b.born < b.mergeDelay) →
      (splitBlobsUpdate hyp rfm splits player dt nowTs velX velY worldSize fd ms dr).2 = player ∧
      (splitBlobsUpdate hyp rfm splits player dt nowTs velX velY worldSize fd ms dr).1.length
        = splits.length) := by
  have key : ∀ (p : Player) (b : SplitBlob), nowTs - b.born < b.mergeDelay →
      (splitBlobStep hyp rfm p b dt nowTs velX velY worldSize fd ms dr).1.isSome ∧
      (splitBlobStep hyp rfm p b dt nowTs velX velY worldSize fd ms dr).2 = p := by
    intro p b hb
    unfold splitBlobStep
    by_cases hf : nowTs - b.born < fd
    · rw [if_pos hf]
      exact ⟨splitFinish_fst_isSome _ _ _ _ _ _, rfl⟩
    · rw [if_neg hf]
      rw [if_neg (by simp only [smoothVisual_mergeDelay]; intro hcon; linarith [hcon.1])]
      exact ⟨splitFinish_fst_isSome _ _ _ _ _ _, rfl⟩
  refine ⟨key player s, ?_, ?_⟩
  · intro hnone
    unfold splitBlobStep at hnone
    by_cases hf : nowTs - s.born < fd
    · rw [if_pos hf] at hnone
      exact absurd hnone (by simp [splitFinish])
    · rw [if_neg hf] at hnone
      by_cases hm : (smoothVisual s).mergeDelay ≤ nowTs - s.born ∧
          (if hyp (player.x - ((smoothVisual s).x + velX * MIMIC_FACTOR * dt))
              (player.y - ((smoothVisual s).y + velY * MIMIC_FACTOR * dt)) = 0 then (1 : ℚ)
            else hyp (player.x - ((smoothVisual s).x + velX * MIMIC_FACTOR * dt))
              (player.y - ((smoothVisual s).y + velY * MIMIC_FACTOR * dt))) < player.radius
      · simp only [smoothVisual_mergeDelay, smoothVisual_x, smoothVisual_y] at hm
        refine ⟨hm.1, ?_⟩
        rcases hm with ⟨hd1, hd2⟩
        split_ifs at hd2 with h0
        · rw [h0]
          linarith
        · exact hd2
      · rw [if_neg (by simpa using hm)] at hnone
        exact absurd hnone (by simp [splitFinish])
  · intro hall
    induction splits with
    | nil => simp [splitBlobsUpdate]
    | cons b rest ih =>
      have hb := hall b (List.mem_cons_self b rest)
      have hrest := fun c hc => hall c (List.mem_cons_of_mem b hc)
      have ihr := ih hrest
      simp only [splitBlobsUpdate, List.foldr_cons] at ihr ⊢
      obtain ⟨hp, hl⟩ := ihr
      rw [hp]
      obtain ⟨hsome, hpl⟩ := key player b hb
      rcases hstep : splitBlobStep hyp rfm player b dt nowTs velX velY worldSize fd ms dr
        with ⟨o, p⟩
      rw [hstep] at hsome hpl
      cases o with
      | some s2 =>
        simp only at hsome hpl ⊢
        exact ⟨hpl, by simp [hl]⟩
      | none => simp at hsome

/-- Witness for `splitBlob_merge_gating`: a blob born at 0 with merge delay
30000, past its flight phase at `nowTs = 1500`, sitting exactly on the player's
center (the hypot oracle reports 0) is not merged and leaves the player's mass
unchanged. -/
theorem splitBlob_merge_gating_witness :
    (splitBlobStep (fun _ _ => 0) (fun _ => 0) ⟨5, 5, 100, 50⟩ ⟨"s", 5, 5, 0, 0, 20, 20, 0, 30000⟩
        1 1500 0 0 11000 1000 100 0).1.isSome ∧
    (splitBlobStep (fun _ _ => 0) (fun _ => 0) ⟨5, 5, 100, 50⟩ ⟨"s", 5, 5, 0, 0, 20, 20, 0, 30000⟩
        1 1500 0 0 11000 1000 100 0).2 = ⟨5, 5, 100, 50⟩ :=
  (splitBlob_merge_gating (fun _ _ => 0) (fun _ => 0) ⟨5, 5, 100, 50⟩
    ⟨"s", 5, 5, 0, 0, 20, 20, 0, 30000⟩ [] 1 1500 0 0 11000 1000 100 0).1 (by norm_num)

/-! ## Cross-player consumption scan
(`CollisionDetection.checkPlayerVsOtherPlayersCollisions`, lines 172-237).
The source performs no writes in this function: it only reads the entity lists
and calls `onPlayerConsume` at most once before returning, so the embedding is
a pure function producing an optional consumption intent. -/

/-- The `targetType`/`consumingEntityType` literals `'player' | 'split'`. -/
inductive TargetType where
  | player
  | split
deriving DecidableEq, Repr

/-- Argument bundle of one `onPlayerConsume` callback invocation. -/
structure ConsumeIntent where
  targetId : String
  targetType : TargetType
  consumingEntityType : TargetType
  consumingEntityId : String
deriving DecidableEq, Repr

/-- Main player vs a remote player (lines 187-194): actual-mass ratio 1.1 and
the prey center inside the predator's visual radius. -/
def mainVsPlayerHit (player : Player) (op : OtherPlayer) : Bool :=
  decide (op.mass * (11 / 10) ≤ player.mass) && distSqLt player.x player.y op.x op.y player.radius

/-- Main player vs a remote split (lines 198-208): adds the own-split filter
`otherSplit.playerId !== myPlayerId`. -/
def mainVsSplitHit (player : Player) (myPlayerId : String) (os : OtherPlayerSplit) : Bool :=
  decide (os.playerId ≠ myPlayerId) && decide (os.mass * (11 / 10) ≤ player.mass) &&
    distSqLt player.x player.y os.x os.y player.radius

/-- A local split vs a remote player (lines 216-223); the split's collision
radius is `radiusFromMass split.visualMass`, abstracted as `rfm`. -/
def splitVsPlayerHit (rfm : ℚ → ℚ) (sb : SplitBlob) (op : OtherPlayer) : Bool :=
  decide (op.mass * (11 / 10) ≤ sb.mass) && distSqLt sb.x sb.y op.x op.y (rfm sb.visualMass)

/-- A local split vs a remote split (lines 227-234). -/
def splitVsSplitHit (rfm : ℚ → ℚ) (myPlayerId : String) (sb : SplitBlob)
    (os : OtherPlayerSplit) : Bool :=
  decide (os.playerId ≠ myPlayerId) && decide (os.mass * (11 / 10) ≤ sb.mass) &&
    distSqLt sb.x sb.y os.x os.y (rfm sb.visualMass)

/-- The per-split half of the scan (lines 212-236): for each local split in
order, first the remote players, then the remote splits; the first hit returns
immediately. -/
def checkSplitsLoop (rfm : ℚ → ℚ) (otherPlayers : List OtherPlayer)
    (otherPlayerSplits : List OtherPlayerSplit) (myPlayerId : String) :
    List SplitBlob → Option ConsumeIntent
  | [] => none
  | sb :: rest =>
    match otherPlayers.find? (splitVsPlayerHit rfm sb) with
    | some op => some ⟨op.id, .player, .split, sb.id⟩
    | none =>
      match otherPlayerSplits.find? (splitVsSplitHit rfm myPlayerId sb) with
      | some os => some ⟨toString os.id, .split, .split, sb.id⟩
      | none => checkSplitsLoop rfm otherPlayers otherPlayerSplits myPlayerId rest

/-- `CollisionDetection.checkPlayerVsOtherPlayersCollisions` (lines 172-237):
main player vs remote players, main player vs remote splits, then the per-split
loop; each `return` after the single callback invocation is the early exit of
the corresponding `find?`. -/
def checkPlayerVsOtherPlayersCollisions (rfm : ℚ → ℚ) (player : Player)
    (splits : List SplitBlob) (otherPlayers : List OtherPlayer)
    (otherPlayerSplits : List OtherPlayerSplit) (myPlayerId : String) : Option ConsumeIntent :=
  match otherPlayers.find? (mainVsPlayerHit player) with
  | some op => some ⟨op.id, .player, .player, "main"⟩
  | none =>
    match otherPlayerSplits.find? (mainVsSplitHit player myPlayerId) with
    | some os => some ⟨toString os.id, .split, .player, "main"⟩
    | none => checkSplitsLoop rfm otherPlayers otherPlayerSplits myPlayerId splits

/-- Specification-side candidate list: every (eligibility, intent) pair in the
claimed fixed iteration order — main vs players, main vs remote splits, then
for each local split its players pass followed by its remote-splits pass. -/
def candidatePairs (rfm : ℚ → ℚ) (player : Player) (splits : List SplitBlob)
    (otherPlayers : List OtherPlayer) (otherPlayerSplits : List OtherPlayerSplit)
    (myPlayerId : String) : List (Bool × ConsumeIntent) :=
  otherPlayers.map (fun op => (mainVsPlayerHit player op,
      (⟨op.id, .player, .player, "main"⟩ : ConsumeIntent)))
  ++ otherPlayerSplits.map (fun os => (mainVsSplitHit player myPlayerId os,
      (⟨toString os.id, .split, .player, "main"⟩ : ConsumeIntent)))
  ++ splits.flatMap (fun sb =>
      otherPlayers.map (fun op => (splitVsPlayerHit rfm sb op,
        (⟨op.id, .player, .split, sb.id⟩ : ConsumeIntent)))
      ++ otherPlayerSplits.map (fun os => (splitVsSplitHit rfm myPlayerId sb os,
        (⟨toString os.id, .split, .split, sb.id⟩ : ConsumeIntent))))

/-- Searching the image of a pairing map is searching the original list. -/
theorem find?_fst_map {α : Type} (l : List α) (hit : α → Bool) (mk : α → ConsumeIntent) :
    ((l.map (fun a => (hit a, mk a))).find? (fun c => c.1)).map (fun c => c.2)
      = (l.find? hit).map mk := by
  induction l with
  | nil => rfl
  | cons a rest ih =>
    by_cases h : hit a
    · simp [List.find?_cons, h]
    · simp only [List.map_cons, List.find?_cons, h]
      simpa [h] using ih

/-- The per-split loop returns the first eligible candidate of its flattened,
ordered candidate list. -/
theorem checkSplitsLoop_eq_find (rfm : ℚ → ℚ) (otherPlayers : List OtherPlayer)
    (otherPlayerSplits : List OtherPlayerSplit) (myPlayerId : String) (splits : List SplitBlob) :
    checkSplitsLoop rfm otherPlayers otherPlayerSplits myPlayerId splits
      = ((splits.flatMap (fun sb =>
          otherPlayers.map (fun op => (splitVsPlayerHit rfm sb op,
            (⟨op.id, .player, .split, sb.id⟩ : ConsumeIntent)))
          ++ otherPlayerSplits.map (fun os => (splitVsSplitHit rfm myPlayerId sb os,
            (⟨toString os.id, .split, .split, sb.id⟩ : ConsumeIntent))))).find?
            (fun c => c.1)).map (fun c => c.2) := by
  induction splits with
  | nil => rfl
  | cons sb rest ih =>
    simp only [checkSplitsLoop, List.flatMap_cons, List.append_assoc, List.find?_append,
      List.find?_map, Function.comp_def, Option.map_or]
    rcases h1 : otherPlayers.find? (splitVsPlayerHit rfm sb) with _ | op
    · rcases h2 : otherPlayerSplits.find? (splitVsSplitHit rfm myPlayerId sb) with _ | os
      · simp [h1, h2, ih]
      · simp [h1, h2]
    · simp [h1]

/-- C6.  `checkPlayerVsOtherPlayersCollisions` mutates no state (the embedding
is a pure reader of the entity lists, mirroring a source function with no
assignment statements) and produces at most one consumption intent per
invocation: exactly the first eligible candidate in the fixed order — main
player vs remote players, main player vs remote splits, then for each local
split its remote-players pass followed by its remote-splits pass — where
eligibility is `predator actual mass ≥ 1.1 × prey actual mass` together with
the prey's center lying inside the predator's visual radius (and, against
remote splits, the prey not being one's own split). -/
theorem checkPlayerVsOtherPlayers_first_eligible (rfm : ℚ → ℚ) (player : Player)
    (splits : List SplitBlob) (otherPlayers : List OtherPlayer)
    (otherPlayerSplits : List OtherPlayerSplit) (myPlayerId : String) :
    checkPlayerVsOtherPlayersCollisions rfm player splits otherPlayers otherPlayerSplits myPlayerId
      = ((candidatePairs rfm player splits otherPlayers otherPlayerSplits myPlayerId).find?
          (fun c => c.1)).map (fun c => c.2) := by
  simp only [checkPlayerVsOtherPlayersCollisions, candidatePairs, List.append_assoc,
    List.find?_append, List.find?_map, Function.comp_def, Option.map_or]
  rcases h1 : otherPlayers.find? (mainVsPlayerHit player) with _ | op
  · rcases h2 : otherPlayerSplits.find? (mainVsSplitHit player myPlayerId) with _ | os
    · simp [h1, h2, checkSplitsLoop_eq_find]
    · simp [h1, h2]
  · simp [h1]

/-! ## Pellet consumption (`CollisionDetection.checkPelletCollisions`, lines
87-120).  The source iterates the pellet array from the last index down to the
first and never splices or writes it: a consumed pellet stays in the array
until a server `pellet_update` removes it. -/

/-- Pellet vs main player (line 98): center inside the player's visual radius. -/
def pelletHitsPlayer (player : Player) (pel : Pellet) : Bool :=
  distSqLt pel.x pel.y player.x player.y player.radius

/-- Pellet vs a split (line 110): center inside the split's visual radius
`radiusFromMass s.visualMass`, abstracted as `rfm`. -/
def pelletHitsSplit (rfm : ℚ → ℚ) (pel : Pellet) (s : SplitBlob) : Bool :=
  distSqLt pel.x pel.y s.x s.y (rfm s.visualMass)

/-- The fields of a split that pellet-eligibility reads (position and visual
mass); the pass only ever writes `mass`, so this shape is invariant. -/
def splitShape (s : SplitBlob) : ℚ × ℚ × ℚ := (s.x, s.y, s.visualMass)

/-- The inner split loop for one pellet (lines 106-118): the first split in
order whose visual radius covers the pellet gains the pellet's mass; the flag
reports whether any split ate. -/
def eatBySplits (rfm : ℚ → ℚ) (pel : Pellet) : List SplitBlob → List SplitBlob × Bool
  | [] => ([], false)
  | s :: rest =>
    if pelletHitsSplit rfm pel s then ({ s with mass := s.mass + pel.mass } :: rest, true)
    else
      let r := eatBySplits rfm pel rest
      (s :: r.1, r.2)

/-- One pellet's pass (the loop body, lines 93-119): main player first, then
the splits; at most one eater gains and at most one `onPelletConsumed(pel.id)`
event fires. -/
def pelletStep (rfm : ℚ → ℚ) (player : Player) (splits : List SplitBlob) (pel : Pellet) :
    Player × List SplitBlob × List ℤ :=
  if pelletHitsPlayer player pel then
    ({ player with mass := player.mass + pel.mass }, splits, [pel.id])
  else
    let r := eatBySplits rfm pel splits
    (player, r.1, if r.2 then [pel.id] else [])

/-- The pellet loop over a list of pellets in processing order, threading the
player, the splits and the emitted `onPelletConsumed` ids. -/
def pelletLoop (rfm : ℚ → ℚ) :
    List Pellet → Player × List SplitBlob × List ℤ → Player × List SplitBlob × List ℤ
  | [], acc => acc
  | pel :: rest, acc =>
    let r := pelletStep rfm acc.1 acc.2.1 pel
    pelletLoop rfm rest (r.1, r.2.1, acc.2.2 ++ r.2.2)

/-- `CollisionDetection.checkPelletCollisions` (lines 87-120): the source
iterates from the last pellet to the first (`pellets.reverse` in processing
order) and returns the pellet array untouched. -/
def checkPelletCollisions (rfm : ℚ → ℚ) (player : Player) (splits : List SplitBlob)
    (pellets : List Pellet) : Player × List SplitBlob × List Pellet × List ℤ :=
  let go := pelletLoop rfm pellets.reverse (player, splits, [])
  (go.1, go.2.1, pellets, go.2.2)

/-- Eating a pellet only changes split masses, never positions or visual
masses. -/
theorem eatBySplits_shape (rfm : ℚ → ℚ) (pel : Pellet) (splits : List SplitBlob) :
    ((eatBySplits rfm pel splits).1).map splitShape = splits.map splitShape := by
  induction splits with
  | nil => rfl
  | cons s rest ih =>
    simp only [eatBySplits]
    split_ifs with h
    · simp [splitShape]
    · simp [ih]

/-- The split-loop flag is exactly "some split covers the pellet". -/
theorem eatBySplits_flag (rfm : ℚ → ℚ) (pel : Pellet) (splits : List SplitBlob) :
    (eatBySplits rfm pel splits).2 = splits.any (pelletHitsSplit rfm pel) := by
  induction splits with
  | nil => rfl
  | cons s rest ih =>
    simp only [eatBySplits]
    split_ifs with h
    · simp [h]
    · simp [h, ih]

/-- Pellet eligibility only reads the invariant shape of the splits. -/
theorem any_hits_of_shape_eq (rfm : ℚ → ℚ) (pel : Pellet) (l1 l2 : List SplitBlob)
    (h : l1.map splitShape = l2.map splitShape) :
    l1.any (pelletHitsSplit rfm pel) = l2.any (pelletHitsSplit rfm pel) := by
  have key : ∀ l : List SplitBlob, l.any (pelletHitsSplit rfm pel)
      = (l.map splitShape).any (fun t => distSqLt pel.x pel.y t.1 t.2.1 (rfm t.2.2)) := by
    intro l
    induction l with
    | nil => rfl
    | cons a rest ih => simp [ih]; rfl
  rw [key, key, h]

/-- Loop invariant of the pellet pass: the player gains exactly the masses of
the pellets that cover it, one consumption event fires per covered pellet in
processing order, and the player's position/radius and every split's shape are
untouched. -/
theorem pelletLoop_spec (rfm : ℚ → ℚ) (l : List Pellet) :
    ∀ (p : Player) (sp : List SplitBlob) (ev : List ℤ),
    (pelletLoop rfm l (p, sp, ev)).1.mass
       = p.mass + ((l.filter (pelletHitsPlayer p)).map Pellet.mass).sum ∧
    (pelletLoop rfm l (p, sp, ev)).2.2
       = ev ++ (l.filter (fun pel => pelletHitsPlayer p pel
            || sp.any (pelletHitsSplit rfm pel))).map Pellet.id ∧
    (pelletLoop rfm l (p, sp, ev)).1.x = p.x ∧
    (pelletLoop rfm l (p, sp, ev)).1.y = p.y ∧
    (pelletLoop rfm l (p, sp, ev)).1.radius = p.radius ∧
    (pelletLoop rfm l (p, sp, ev)).2.1.map splitShape = sp.map splitShape := by
  induction l with
  | nil => intro p sp ev; simp [pelletLoop]
  | cons pel rest ih =>
    intro p sp ev
    by_cases hp : pelletHitsPlayer p pel
    · have hstep : pelletStep rfm p sp pel
          = ({ p with mass := p.mass + pel.mass }, sp, [pel.id]) := by
        simp [pelletStep, hp]
      have hsame : ∀ q, pelletHitsPlayer { p with mass := p.mass + pel.mass } q
          = pelletHitsPlayer p q := fun _ => rfl
      simp only [pelletLoop, hstep]
      obtain ⟨h1, h2, h3, h4, h5, h6⟩ := ih { p with mass := p.mass + pel.mass } sp (ev ++ [pel.id])
      have hfil : rest.filter (pelletHitsPlayer { p with mass := p.mass + pel.mass })
          = rest.filter (pelletHitsPlayer p) := List.filter_congr (fun a _ => hsame a)
      have hcomb : rest.filter (fun q => pelletHitsPlayer { p with mass := p.mass + pel.mass } q
            || sp.any (pelletHitsSplit rfm q))
          = rest.filter (fun q => pelletHitsPlayer p q || sp.any (pelletHitsSplit rfm q)) :=
        List.filter_congr (fun a _ => by rw [hsame a])
      refine ⟨?_, ?_, h3, h4, h5, h6⟩
      · rw [h1, hfil]
        simp only [List.filter_cons, hp]
        simp
        ring
      · rw [h2, hcomb]
        simp only [List.filter_cons, hp]
        simp [List.append_assoc]
    · have hflag := eatBySplits_flag rfm pel sp
      have hshape := eatBySplits_shape rfm pel sp
      have hstep : pelletStep rfm p sp pel
          = (p, (eatBySplits rfm pel sp).1,
             if sp.any (pelletHitsSplit rfm pel) then [pel.id] else []) := by
        simp [pelletStep, hp, hflag]
      simp only [pelletLoop, hstep]
      obtain ⟨h1, h2, h3, h4, h5, h6⟩ := ih p (eatBySplits rfm pel sp).1
        (ev ++ if sp.any (pelletHitsSplit rfm pel) then [pel.id] else [])
      have hanysame : ∀ q, (eatBySplits rfm pel sp).1.any (pelletHitsSplit rfm q)
          = sp.any (pelletHitsSplit rfm q) := fun q => any_hits_of_shape_eq rfm q _ _ hshape
      refine ⟨?_, ?_, h3, h4, h5, ?_⟩
      · rw [h1]
        simp only [List.filter_cons, hp]
        simp
      · rw [h2]
        have : (rest.filter (fun pel2 => pelletHitsPlayer p pel2
              || (eatBySplits rfm pel sp).1.any (pelletHitsSplit rfm pel2)))
            = rest.filter (fun pel2 => pelletHitsPlayer p pel2
              || sp.any (pelletHitsSplit rfm pel2)) :=
          List.filter_congr (fun a _ => by rw [hanysame a])
        rw [this]
        by_cases hany : sp.any (pelletHitsSplit rfm pel)
        · simp [List.filter_cons, hp, hany, List.append_assoc]
        · simp [List.filter_cons, hp, hany]
      · rw [h6, hshape]

/-- When a pellet misses the player and split `j` is the first split covering
it, only that split gains the pellet's mass. -/
theorem eatBySplits_first (rfm : ℚ → ℚ) (pel : Pellet) :
    ∀ (splits : List SplitBlob) (j : ℕ) (s0 : SplitBlob),
    splits[j]? = some s0 → pelletHitsSplit rfm pel s0 = true →
    (∀ (k : ℕ) (sk : SplitBlob), k < j → splits[k]? = some sk →
      pelletHitsSplit rfm pel sk = false) →
    (eatBySplits rfm pel splits).1 = splits.set j { s0 with mass := s0.mass + pel.mass } := by
  intro splits
  induction splits with
  | nil => intro j s0 h; simp at h
  | cons s rest ih =>
    intro j s0 hget hhit hbefore
    cases j with
    | zero =>
      rw [List.getElem?_cons_zero] at hget
      injection hget with hget
      subst hget
      simp [eatBySplits, hhit]
    | succ j2 =>
      have hs : pelletHitsSplit rfm pel s = false :=
        hbefore 0 s (Nat.succ_pos _) List.getElem?_cons_zero
      rw [List.getElem?_cons_succ] at hget
      simp only [eatBySplits, hs, Bool.false_eq_true, if_false, List.set]
      rw [ih j2 s0 hget hhit
        (fun k sk hk hgetk => hbefore (k + 1) sk (by omega) (by simpa using hgetk))]

/-- C10.  `checkPelletCollisions` never removes or mutates any pellet — the
pellet list is returned element-wise unchanged, so a consumed pellet stays
locally present and can be consumed again on a later frame until a server
pellet-update deletes it; one consumption event fires per pellet covering some
eater (in the source's last-to-first iteration order); the player — tested
before the splits — gains exactly the masses of the pellets covering it; and
for a pellet missing the player, only the first covering split's actual mass
grows by that pellet's mass, with one event. -/
theorem checkPelletCollisions_spec (rfm : ℚ → ℚ) (player : Player) (splits : List SplitBlob)
    (pellets : List Pellet) :
    (checkPelletCollisions rfm player splits pellets).2.2.1 = pellets ∧
    (checkPelletCollisions rfm player splits pellets).2.2.2
      = (pellets.reverse.filter (fun pel => pelletHitsPlayer player pel
          || splits.any (pelletHitsSplit rfm pel))).map Pellet.id ∧
    (checkPelletCollisions rfm player splits pellets).1.mass
      = player.mass + ((pellets.filter (pelletHitsPlayer player)).map Pellet.mass).sum ∧
    (∀ (pel : Pellet) (j : ℕ) (s0 : SplitBlob),
      pelletHitsPlayer player pel = false →
      splits[j]? = some s0 → pelletHitsSplit rfm pel s0 = true →
      (∀ (k : ℕ) (sk : SplitBlob), k < j → splits[k]? = some sk →
        pelletHitsSplit rfm pel sk = false) →
      pelletStep rfm player splits pel
        = (player, splits.set j { s0 with mass := s0.mass + pel.mass }, [pel.id])) := by
  obtain ⟨h1, h2, _, _, _, _⟩ := pelletLoop_spec rfm pellets.reverse player splits []
  refine ⟨rfl, ?_, ?_, ?_⟩
  · simpa [checkPelletCollisions] using h2
  · simpa [checkPelletCollisions, List.filter_reverse, List.map_reverse, List.sum_reverse]
      using h1
  · intro pel j s0 hp hget hhit hbefore
    have hmem : s0 ∈ splits := by
      obtain ⟨hlt, rfl⟩ := List.getElem?_eq_some.1 hget
      exact List.getElem_mem _
    have hany : splits.any (pelletHitsSplit rfm pel) = true :=
      List.any_eq_true.2 ⟨s0, hmem, hhit⟩
    have hfst := eatBySplits_first rfm pel splits j s0 hget hhit hbefore
    simp [pelletStep, hp, eatBySplits_flag, hany, hfst]

/-- Witness for `checkPelletCollisions_spec`, first-covering-split clause: a
pellet of mass 7 sitting on the only split (and far from the player) adds
exactly 7 to that split's mass and emits one event with the pellet's id. -/
theorem checkPelletCollisions_spec_witness :
    pelletStep (fun _ => 5) ⟨100, 100, 25, 10⟩ [⟨"s", 0, 0, 0, 0, 20, 20, 0, 30000⟩] ⟨1, 0, 0, 7⟩
      = (⟨100, 100, 25, 10⟩, [⟨"s", 0, 0, 0, 0, 20 + 7, 20, 0, 30000⟩], [1]) := by
  have h := (checkPelletCollisions_spec (fun _ => 5) ⟨100, 100, 25, 10⟩
      [⟨"s", 0, 0, 0, 0, 20, 20, 0, 30000⟩] []).2.2.2
  have h2 := h ⟨1, 0, 0, 7⟩ 0 ⟨"s", 0, 0, 0, 0, 20, 20, 0, 30000⟩
    (by simp only [pelletHitsPlayer, distSqLt, decide_eq_false_iff_not]; norm_num)
    rfl
    (by simp only [pelletHitsSplit, distSqLt, decide_eq_true_eq]; norm_num)
    (fun k sk hk _ => absurd hk (by omega))
  simpa using h2

/-! ## Player-consumed reconciliation (`useGameState.ts`, handler lines 674-734,
request side `consumePlayer` lines 790-813) -/

/-- The request-side snapshot lookup of `consumePlayer` (lines 800-809): the
consuming entity's position/mass snapshot comes from
`gameState.current.splits[consumingEntityIndex]` — a positional array index
(`undefined` index or a negative one yields a `null` snapshot). -/
def consumePlayerRequestSnapshot (player : Player) (splits : List SplitBlob)
    (consumingEntityType : TargetType) (consumingEntityIndex : Option ℤ) :
    Option (ℚ × ℚ × ℚ) :=
  match consumingEntityType with
  | .player => some (player.x, player.y, player.mass)
  | .split =>
    match consumingEntityIndex with
    | some idx =>
      if 0 ≤ idx then (splits[idx.toNat]?).map (fun s => (s.x, s.y, s.mass))
      else none
    | none => none

/-- The outbound `consume_player` message assembled by `consumePlayer`
(lines 790-813): it carries the positional `consumingEntityIndex`, not a split
id. -/
structure ConsumeRequest where
  targetId : String
  targetType : TargetType
  consumingEntityType : TargetType
  consumingEntityIndex : Option ℤ
  consumingEntity : Option (ℚ × ℚ × ℚ)
deriving DecidableEq, Repr

/-- `consumePlayer` (lines 790-813): always sends, with the positionally-looked-
up snapshot. -/
def consumePlayerCall (player : Player) (splits : List SplitBlob) (targetId : String)
    (targetType : TargetType) (cType : TargetType) (cIdx : Option ℤ) : ConsumeRequest :=
  ⟨targetId, targetType, cType, cIdx,
   consumePlayerRequestSnapshot player splits cType cIdx⟩

/-- The consumer-side mass application of the `onPlayerConsumed` handler
(lines 690-703, identically 714-727): a `'player'` consumer updates the main
player's mass and radius; a `'split'` consumer is fetched positionally as
`gameState.current.splits[consumingEntityIndex]` and, when that slot exists,
its mass is set to the authoritative `newMass`. -/
def onPlayerConsumedApply (rfm : ℚ → ℚ) (player : Player) (splits : List SplitBlob)
    (consumingEntityType : TargetType) (consumingEntityIndex : Option ℤ) (newMass : ℚ) :
    Player × List SplitBlob :=
  match consumingEntityType with
  | .player => ({ player with mass := newMass, radius := rfm newMass }, splits)
  | .split =>
    match consumingEntityIndex with
    | some idx =>
      if 0 ≤ idx then
        match splits[idx.toNat]? with
        | some split => (player, splits.set idx.toNat { split with mass := newMass })
        | none => (player, splits)
      else (player, splits)
    | none => (player, splits)

/-- C2 counterexample.  The reconciliation is NOT id-based: a request made by
the split with id "s0" (then at index 0 of `[s0, s1]`, as the request snapshot
shows) whose response arrives after "s0" was removed is applied positionally to
index 0 of the remaining list `[s1]`, so the authoritative mass 50 lands on the
split with id "s1" — a different split than the requester — refuting the claim
that the update is looked up by an id carried in the request. -/
theorem onPlayerConsumed_positional_not_id :
    consumePlayerRequestSnapshot ⟨0, 0, 25, 10⟩
        [⟨"s0", 1, 1, 0, 0, 10, 10, 0, 30000⟩, ⟨"s1", 2, 2, 0, 0, 20, 20, 0, 30000⟩]
        TargetType.split (some 0) = some (1, 1, 10) ∧
    (onPlayerConsumedApply (fun _ => 0) ⟨0, 0, 25, 10⟩ [⟨"s1", 2, 2, 0, 0, 20, 20, 0, 30000⟩]
        TargetType.split (some 0) 50).2
      = [⟨"s1", 2, 2, 0, 0, 50, 20, 0, 30000⟩] ∧
    "s1" ≠ "s0" := by
  refine ⟨rfl, rfl, by decide⟩

/-- C2 (amended).  The `onPlayerConsumed` handler applies the authoritative new
mass by POSITIONAL index: with a valid `consumingEntityIndex` it overwrites the
mass of whatever split currently occupies that slot (leaving every other split
unchanged), does nothing when the index is out of range or negative or absent,
and for a `'player'` consumer sets the main player's mass and derived radius.
The update is therefore only correct while the splits array has not been
reordered between request and response. -/
theorem onPlayerConsumedApply_spec (rfm : ℚ → ℚ) (player : Player) (splits : List SplitBlob)
    (idx : ℤ) (newMass : ℚ) :
    (0 ≤ idx → ∀ s0, splits[idx.toNat]? = some s0 →
      onPlayerConsumedApply rfm player splits TargetType.split (some idx) newMass
        = (player, splits.set idx.toNat { s0 with mass := newMass })) ∧
    (0 ≤ idx → splits[idx.toNat]? = none →
      onPlayerConsumedApply rfm player splits TargetType.split (some idx) newMass
        = (player, splits)) ∧
    (idx < 0 →
      onPlayerConsumedApply rfm player splits TargetType.split (some idx) newMass
        = (player, splits)) ∧
    (onPlayerConsumedApply rfm player splits TargetType.split none newMass
        = (player, splits)) ∧
    (onPlayerConsumedApply rfm player splits TargetType.player (some idx) newMass
        = ({ player with mass := newMass, radius := rfm newMass }, splits)) := by
  refine ⟨?_, ?_, ?_, rfl, rfl⟩
  · intro hnn s0 hget
    simp [onPlayerConsumedApply, if_pos hnn, hget]
  · intro hnn hget
    simp [onPlayerConsumedApply, if_pos hnn, hget]
  · intro hneg
    simp [onPlayerConsumedApply, if_neg (by omega : ¬ (0 ≤ idx))]

/-- Witness for `onPlayerConsumedApply_spec`: applying mass 50 at index 1 of a
two-split list rewrites exactly the second slot. -/
theorem onPlayerConsumedApply_spec_witness :
    onPlayerConsumedApply (fun _ => 0) ⟨0, 0, 25, 10⟩
        [⟨"s0", 1, 1, 0, 0, 10, 10, 0, 30000⟩, ⟨"s1", 2, 2, 0, 0, 20, 20, 0, 30000⟩]
        TargetType.split (some 1) 50
      = (⟨0, 0, 25, 10⟩,
         [⟨"s0", 1, 1, 0, 0, 10, 10, 0, 30000⟩, ⟨"s1", 2, 2, 0, 0, 50, 20, 0, 30000⟩]) :=
  (onPlayerConsumedApply_spec (fun _ => 0) ⟨0, 0, 25, 10⟩
      [⟨"s0", 1, 1, 0, 0, 10, 10, 0, 30000⟩, ⟨"s1", 2, 2, 0, 0, 20, 20, 0, 30000⟩] 1 50).1
    (by omega) ⟨"s1", 2, 2, 0, 0, 20, 20, 0, 30000⟩ rfl

/-! ## Consumption-request suppression (`useGameState.ts`, `consumePlayer`
lines 790-813, `consumeOtherEjected` lines 815-846, and the
`consumedEjectedIds` deletion in the `onOtherEjectedConsumed` handler,
line 765).  The `consumedEjectedIds` JS `Set` is modelled as a duplicate-free
id list: `has` is membership, `add` prepends an absent id, `delete` is
`List.erase`. -/

/-- `consumeOtherEjected` (lines 815-846): an id already in the suppression set
is dropped without sending; otherwise the id is marked and the request is
emitted.  The boolean is "a `consume_other_ejected` message was sent". -/
def consumeOtherEjected (st : List ℤ) (ejectedId : ℤ) : List ℤ × Bool :=
  if ejectedId ∈ st then (st, false)
  else (ejectedId :: st, true)

/-- The suppression-set effect of the `onOtherEjectedConsumed` handler
(line 765): the server's terminal outcome removes the id from the set. -/
def onOtherEjectedConsumedSet (st : List ℤ) (ejectedId : ℤ) : List ℤ :=
  st.erase ejectedId

/-- One client-side operation relevant to duplicate suppression. -/
inductive ClientOp where
  | callConsumePlayer (targetId : String) (targetType : TargetType)
      (cType : TargetType) (cIdx : Option ℤ)
  | callConsumeOtherEjected (ejectedId : ℤ)
  | serverOtherEjectedOutcome (ejectedId : ℤ)
deriving DecidableEq, Repr

/-- An outbound consumption intent. -/
inductive Emission where
  | consumePlayerMsg (r : ConsumeRequest)
  | consumeOtherEjectedMsg (ejectedId : ℤ)
deriving DecidableEq, Repr

/-- Run a sequence of operations against the suppression state, collecting the
emitted intents in order.  `consumePlayer` consults no state and always sends
(lines 790-813 contain no suppression set); `consumeOtherEjected` threads
`consumedEjectedIds`; a server outcome deletes its id from the set.  The
player and splits only feed the snapshots and stay fixed over the trace. -/
def runOps (player : Player) (splits : List SplitBlob) :
    List ClientOp → List ℤ → List ℤ × List Emission
  | [], st => (st, [])
  | op :: rest, st =>
    match op with
    | .callConsumePlayer tid tt ct ci =>
      let r := runOps player splits rest st
      (r.1, .consumePlayerMsg (consumePlayerCall player splits tid tt ct ci) :: r.2)
    | .callConsumeOtherEjected eid =>
      let s2 := consumeOtherEjected st eid
      let r := runOps player splits rest s2.1
      (r.1, (if s2.2 then [Emission.consumeOtherEjectedMsg eid] else []) ++ r.2)
    | .serverOtherEjectedOutcome eid =>
      runOps player splits rest (onOtherEjectedConsumedSet st eid)

/-- Does an emission carry a `consume_player` intent for this pair? -/
def isPlayerIntentFor (targetId : String) (targetType : TargetType) : Emission → Bool
  | .consumePlayerMsg r => r.targetId == targetId && r.targetType == targetType
  | .consumeOtherEjectedMsg _ => false

/-- Does an emission carry a `consume_other_ejected` intent for this id? -/
def isEjectedIntentFor (ejectedId : ℤ) : Emission → Bool
  | .consumePlayerMsg _ => false
  | .consumeOtherEjectedMsg eid => eid == ejectedId

/-- C3 counterexample.  Two frames that both detect the same remote player
"p1" each invoke `consumePlayer`, and both calls emit: the source keeps no
"already requested" state for consume-player intents, so the same unresolved
`(player, "p1")` pair is requested twice with no terminal outcome in between —
refuting the at-most-once claim for the consume-player category. -/
theorem consumePlayer_reemitted_while_unresolved :
    ((runOps ⟨0, 0, 25, 10⟩ []
        [ClientOp.callConsumePlayer "p1" TargetType.player TargetType.player none,
         ClientOp.callConsumePlayer "p1" TargetType.player TargetType.player none]
        []).2.filter (isPlayerIntentFor "p1" TargetType.player)).length = 2 ∧
      ¬ (((runOps ⟨0, 0, 25, 10⟩ []
        [ClientOp.callConsumePlayer "p1" TargetType.player TargetType.player none,
         ClientOp.callConsumePlayer "p1" TargetType.player TargetType.player none]
        []).2.filter (isPlayerIntentFor "p1" TargetType.player)).length ≤ 1) := by
  constructor
  · rfl
  · intro h
    simp only [show ((runOps ⟨0, 0, 25, 10⟩ []
        [ClientOp.callConsumePlayer "p1" TargetType.player TargetType.player none,
         ClientOp.callConsumePlayer "p1" TargetType.player TargetType.player none]
        []).2.filter (isPlayerIntentFor "p1" TargetType.player)).length = 2 from rfl] at h
    omega

/-- C3 (amended).  Only the consume-other-ejected category is suppressed, and
it is suppressed per ejected id: over any operation sequence containing no
server outcome for an id, at most one `consume_other_ejected` intent for that
id is emitted (none at all if the id is already marked); the terminal outcome
deletes the id from the set, re-enabling a future request.  Consume-player
intents carry no suppression state: every `consumePlayer` call emits its
message unconditionally (see the counterexample for the resulting duplicate). -/
theorem consumeOtherEjected_suppression (player : Player) (splits : List SplitBlob) (id : ℤ) :
    (∀ (ops : List ClientOp) (st : List ℤ),
      (∀ op ∈ ops, op ≠ ClientOp.serverOtherEjectedOutcome id) →
      (id ∈ st →
        ((runOps player splits ops st).2.filter (isEjectedIntentFor id)).length = 0) ∧
      ((runOps player splits ops st).2.filter (isEjectedIntentFor id)).length ≤ 1) ∧
    (∀ st : List ℤ, id ∉ st →
      onOtherEjectedConsumedSet (consumeOtherEjected st id).1 id = st) ∧
    (∀ (tid : String) (tt ct : TargetType) (ci : Option ℤ) (ops : List ClientOp)
        (st : List ℤ),
      (runOps player splits (ClientOp.callConsumePlayer tid tt ct ci :: ops) st).2
        = Emission.consumePlayerMsg (consumePlayerCall player splits tid tt ct ci)
            :: (runOps player splits ops st).2) := by
  refine ⟨?_, ?_, fun tid tt ct ci ops st => rfl⟩
  · intro ops
    induction ops with
    | nil =>
      intro st _
      exact ⟨fun _ => rfl, by simp [runOps]⟩
    | cons op rest ih =>
      intro st hno
      have hno_head : op ≠ ClientOp.serverOtherEjectedOutcome id :=
        hno op (List.mem_cons_self op rest)
      have hno_rest : ∀ op2 ∈ rest, op2 ≠ ClientOp.serverOtherEjectedOutcome id :=
        fun op2 h2m => hno op2 (List.mem_cons_of_mem op h2m)
      cases op with
      | callConsumePlayer tid tt ct ci =>
        have := ih st hno_rest
        simpa [runOps, List.filter_cons, isEjectedIntentFor] using this
      | callConsumeOtherEjected eid =>
        by_cases hmem : eid ∈ st
        · have := ih st hno_rest
          simpa [runOps, consumeOtherEjected, hmem] using this
        · by_cases heq : eid = id
          · subst heq
            have hin := ih (eid :: st) hno_rest
            have h0 := hin.1 (List.mem_cons_self eid st)
            constructor
            · intro hid
              exact absurd hid hmem
            · simp only [runOps, consumeOtherEjected, if_neg hmem]
              simp only [List.filter_append, List.length_append]
              have : (([Emission.consumeOtherEjectedMsg eid]).filter
                  (isEjectedIntentFor eid)).length = 1 := by
                simp [isEjectedIntentFor]
              simp only [if_pos rfl] at *
              simp [this, h0]
          · have hin := ih (eid :: st) hno_rest
            have hstep : consumeOtherEjected st eid = (eid :: st, true) := by
              simp [consumeOtherEjected, hmem]
            have hrun : (runOps player splits
                  (ClientOp.callConsumeOtherEjected eid :: rest) st).2
                = Emission.consumeOtherEjectedMsg eid
                    :: (runOps player splits rest (eid :: st)).2 := by
              simp [runOps, hstep]
            have hfalse : isEjectedIntentFor id (Emission.consumeOtherEjectedMsg eid)
                = false := by
              simp [isEjectedIntentFor, heq]
            constructor
            · intro hid
              have h0 := hin.1 (List.mem_cons_of_mem eid hid)
              rw [hrun]
              simp only [List.filter_cons, hfalse, Bool.false_eq_true, if_false]
              exact h0
            · rw [hrun]
              simp only [List.filter_cons, hfalse, Bool.false_eq_true, if_false]
              exact hin.2
      | serverOtherEjectedOutcome eid =>
        have hne : eid ≠ id := by
          intro h
          exact hno_head (by rw [h])
        have hin := ih (st.erase eid) hno_rest
        constructor
        · intro hid
          have hmem2 : id ∈ st.erase eid := (List.mem_erase_of_ne (Ne.symm hne)).2 hid
          simpa [runOps, onOtherEjectedConsumedSet] using hin.1 hmem2
        · simpa [runOps, onOtherEjectedConsumedSet] using hin.2
  · intro st hnot
    simp [consumeOtherEjected, hnot, onOtherEjectedConsumedSet, List.erase_cons_head]

/-- Witness for `consumeOtherEjected_suppression`: a trace with two racing
requests for ejected id 5 and no server outcome emits at most one intent. -/
theorem consumeOtherEjected_suppression_witness :
    ((runOps ⟨0, 0, 25, 10⟩ []
        [ClientOp.callConsumeOtherEjected 5, ClientOp.callConsumeOtherEjected 5]
        []).2.filter (isEjectedIntentFor 5)).length ≤ 1 :=
  ((consumeOtherEjected_suppression ⟨0, 0, 25, 10⟩ [] 5).1
    [ClientOp.callConsumeOtherEjected 5, ClientOp.callConsumeOtherEjected 5] []
    (by decide)).2

end Agario
